import Mathlib

/-!
Shallow embedding of the micro-os entry manager (src/unnamed/part_000,
src/src/types.ts, src/src/lib/storage.ts, src/src/lib/id.ts).

Modelling conventions:
* JavaScript values that flow through `JSON.parse` are modelled by the
  inductive `Json` below; numbers are modelled as `Int` (the program only
  uses millisecond timestamps).
* `JSON.parse` itself is a platform builtin, not repository code; its
  outcome is passed in as `Except String Json` (an exception carrying the
  error message, or the parsed value).
* JS string primitives (`split(",")`, `trim`, `toLowerCase`, `includes`)
  are modelled structurally over the character list of a `String`, so that
  every definition evaluates inside the kernel.
-/

namespace MicroOS

/-- JSON values (result of `JSON.parse`). Numbers are modelled as `Int`
since the program only manipulates integer millisecond timestamps. -/
inductive Json where
  | null
  | bool (b : Bool)
  | num (n : Int)
  | str (s : String)
  | arr (elems : List Json)
  | obj (fields : List (String × Json))

/-- An entry record, from `src/src/types.ts`.  The declared TypeScript type
has `tags: string[]`, but the import path (`isEntry`) only checks
`Array.isArray(x.tags)` without validating the elements, so tags are kept
as raw JSON values; app-constructed entries always use `Json.str` tags.
The TypeScript field `example` is called `exampleText` here because
`example` is a Lean keyword. -/
structure Entry where
  id : String
  title : String
  oneLiner : String
  exampleText : String
  tags : List Json
  createdAt : Int
  updatedAt : Int

/-- Property lookup `x.k` on a parsed JSON value: only objects have
(string-keyed) properties.  `JSON.parse` yields objects with distinct
keys, so first-match lookup is adequate. -/
def getField (x : Json) (k : String) : Option Json :=
  match x with
  | .obj fields => (fields.find? (fun p => p.1 = k)).map (fun p => p.2)
  | _ => none

/-- `typeof v === "string"` on an optional property. -/
def isStringField (v : Option Json) : Bool :=
  match v with
  | some (.str _) => true
  | _ => false

/-- `typeof v === "number"` on an optional property. -/
def isNumberField (v : Option Json) : Bool :=
  match v with
  | some (.num _) => true
  | _ => false

/-- `Array.isArray(v)` on an optional property. -/
def isArrField (v : Option Json) : Bool :=
  match v with
  | some (.arr _) => true
  | _ => false

/-- `isEntry` from src/unnamed/part_000 lines 25-37: a truthy object whose
`id`, `title`, `oneLiner`, `example` properties are strings, whose `tags`
property is an array (elements unchecked), and whose `createdAt`,
`updatedAt` properties are numbers.  Non-objects (and JSON arrays, whose
string-keyed properties are all absent) fail the field checks. -/
def isEntry (x : Json) : Bool :=
  match x with
  | .obj _ =>
      isStringField (getField x "id") &&
      isStringField (getField x "title") &&
      isStringField (getField x "oneLiner") &&
      isStringField (getField x "example") &&
      isArrField (getField x "tags") &&
      isNumberField (getField x "createdAt") &&
      isNumberField (getField x "updatedAt")
  | _ => false

/-- Read a JSON value that passed `isEntry` as an `Entry` (the TypeScript
code does this with an unchecked cast; the program never reads properties
other than the seven of the `Entry` type, so the record is observationally
its seven-field projection). -/
def jsonToEntry (x : Json) : Option Entry :=
  match getField x "id", getField x "title", getField x "oneLiner",
        getField x "example", getField x "tags",
        getField x "createdAt", getField x "updatedAt" with
  | some (.str i), some (.str t), some (.str o), some (.str ex),
    some (.arr tg), some (.num c), some (.num u) =>
      some ⟨i, t, o, ex, tg, c, u⟩
  | _, _, _, _, _, _, _ => none

/-- Serialization of an entry for `JSON.stringify` (export path). -/
def entryToJson (e : Entry) : Json :=
  .obj [("id", .str e.id), ("title", .str e.title),
        ("oneLiner", .str e.oneLiner), ("example", .str e.exampleText),
        ("tags", .arr e.tags), ("createdAt", .num e.createdAt),
        ("updatedAt", .num e.updatedAt)]

/-! ### JS string primitives, modelled over character lists -/

/-- `s.split(sep)` for a single-character separator, on character lists.
JS semantics: `"".split(",") = [""]`, separators delimit (possibly empty)
pieces. -/
def splitOnChar (sep : Char) : List Char → List (List Char)
  | [] => [[]]
  | c :: cs =>
    if c = sep then [] :: splitOnChar sep cs
    else
      match splitOnChar sep cs with
      | [] => [[c]]
      | r :: rs => (c :: r) :: rs

/-- `s.trim()`: strip leading and trailing whitespace. -/
def trimChars (l : List Char) : List Char :=
  ((l.dropWhile Char.isWhitespace).reverse.dropWhile Char.isWhitespace).reverse

/-- `s.trim()` on strings. -/
def jsTrim (s : String) : String := ⟨trimChars s.data⟩

/-- `s.toLowerCase()` (ASCII case mapping, the only case the data uses). -/
def jsToLower (s : String) : String := ⟨s.data.map Char.toLower⟩

/-- `hay.includes(needle)`: substring containment. -/
def jsIncludes (hay needle : String) : Bool :=
  decide (needle.data <:+: hay.data)

/-- JS `arr.filter((t, i, arr) => arr.indexOf(t) === i)`: keep an element
exactly when its index is the first index at which its value occurs. -/
def dedupeKeepFirst (l : List String) : List String :=
  (l.enum.filter (fun p => l.indexOf p.2 = p.1)).map (fun p => p.2)

/-- The tag pipeline of `normalizeTags` before deduplication: split on
",", trim each piece, drop empty pieces (`filter(Boolean)`), lowercase. -/
def tagPieces (input : String) : List String :=
  ((((splitOnChar ',' input.data).map
        (fun l => (⟨l⟩ : String))).map jsTrim).filter
      (fun t => t ≠ "")).map jsToLower

/-- `normalizeTags` from src/unnamed/part_000 lines 6-13: split on ",",
trim each piece, drop empty pieces, lowercase, then keep only first
occurrences. -/
def normalizeTags (input : String) : List String :=
  dedupeKeepFirst (tagPieces input)

/-! ### Application state and operations (src/unnamed/part_000) -/

/-- The comparator `(a, b) => b.updatedAt - a.updatedAt` as a total
Boolean order: `a` may come before `b` iff `b.updatedAt ≤ a.updatedAt`. -/
def byUpdatedDesc (a b : Entry) : Bool := b.updatedAt ≤ a.updatedAt

/-- JS `Array.prototype.sort` with the descending-`updatedAt` comparator;
ES2019 sort is stable, modelled by stable `mergeSort`. -/
def sortByUpdatedDesc (l : List Entry) : List Entry := l.mergeSort byUpdatedDesc

/-- Application state: the in-memory collection, the current selection
(`""` meaning none), and the snapshot held by the Persistence Adapter
under its fixed key (`micro_os_entries_v1`). -/
structure AppState where
  entries : List Entry
  selectedId : String
  stored : List Entry

/-- The persist effect (lines 77-79): `saveEntries(entries)` overwrites
the stored snapshot with the full in-memory collection. -/
def persist (s : AppState) : AppState := { s with stored := s.entries }

/-- `selected` (lines 86-89): the first entry whose id is `selectedId`. -/
def selectedEntry (s : AppState) : Option Entry :=
  s.entries.find? (fun e => e.id = s.selectedId)

/-- `createNew` (lines 103-116): a fresh entry with title `"new rule"`,
empty one-liner/example, no tags, `createdAt = updatedAt = now`, prepended
and selected.  The generated id and the clock are passed as parameters. -/
def createNew (newId : String) (now : Int) (s : AppState) : AppState :=
  let e : Entry := ⟨newId, "new rule", "", "", [], now, now⟩
  persist { s with entries := e :: s.entries, selectedId := newId }

/-- `Partial<Entry>`: every field optionally present. -/
structure Patch where
  id : Option String := none
  title : Option String := none
  oneLiner : Option String := none
  exampleText : Option String := none
  tags : Option (List Json) := none
  createdAt : Option Int := none
  updatedAt : Option Int := none

/-- `{ ...e, ...patch, updatedAt: Date.now() }` (line 123): patch fields
override the entry, and the trailing literal overrides any `updatedAt`
the patch may carry. -/
def applyPatch (e : Entry) (p : Patch) (now : Int) : Entry :=
  { id := p.id.getD e.id
    title := p.title.getD e.title
    oneLiner := p.oneLiner.getD e.oneLiner
    exampleText := p.exampleText.getD e.exampleText
    tags := p.tags.getD e.tags
    createdAt := p.createdAt.getD e.createdAt
    updatedAt := now }

/-- `updateSelected` (lines 118-127): no-op without a selection, otherwise
patch the entries sharing the selected id and refresh their `updatedAt`. -/
def updateSelected (p : Patch) (now : Int) (s : AppState) : AppState :=
  match selectedEntry s with
  | none => s
  | some sel =>
      persist { s with
        entries := s.entries.map
          (fun e => if e.id = sel.id then applyPatch e p now else e) }

/-- `deleteSelected` (lines 129-136): no-op without a selection, otherwise
drop the selected id and select the remaining entry with the greatest
`updatedAt` (stable-sort head), or `""` if none remain. -/
def deleteSelected (s : AppState) : AppState :=
  match selectedEntry s with
  | none => s
  | some sel =>
      let remaining := sortByUpdatedDesc (s.entries.filter (fun e => e.id ≠ sel.id))
      persist { s with
        entries := s.entries.filter (fun e => e.id ≠ sel.id)
        selectedId := ((remaining.head?).map Entry.id).getD "" }

/-- The patches the UI actually passes to `updateSelected` (call sites at
lines 303, 318, 328 and 338): exactly one of title, one-liner, example or
tags, the tags input already normalized via `normalizeTags`. -/
inductive UIPatch where
  | title (s : String)
  | oneLiner (s : String)
  | exampleText (s : String)
  | tags (raw : String)

/-- The `Partial<Entry>` each UI call site builds. -/
def UIPatch.toPatch : UIPatch → Patch
  | .title s => { title := some s }
  | .oneLiner s => { oneLiner := some s }
  | .exampleText s => { exampleText := some s }
  | .tags raw => { tags := some ((normalizeTags raw).map Json.str) }

/-! ### Search / filter (lines 91-101) -/

mutual
/-- JS string conversion of one array element inside
`Array.prototype.join` (`null` renders as the empty string, nested arrays
join with `","`, objects render as `"[object Object]"`). -/
def jsJoinElem : Json → String
  | .null => ""
  | .bool b => if b then "true" else "false"
  | .num n => toString n
  | .str s => s
  | .arr xs => jsJoinComma xs
  | .obj _ => "[object Object]"

/-- `arr.join(",")`, the default array-to-string conversion. -/
def jsJoinComma : List Json → String
  | [] => ""
  | [x] => jsJoinElem x
  | x :: xs => jsJoinElem x ++ "," ++ jsJoinComma xs
end

/-- `e.tags.join(" ")`. -/
def jsJoinSpace : List Json → String
  | [] => ""
  | [x] => jsJoinElem x
  | x :: xs => jsJoinElem x ++ " " ++ jsJoinSpace xs

/-- The search haystack (line 97): title, one-liner, example and the
space-joined tags, interleaved with `"\n"`, lowercased. -/
def searchHay (e : Entry) : String :=
  jsToLower (e.title ++ "\n" ++ e.oneLiner ++ "\n" ++ e.exampleText ++ "\n"
    ++ jsJoinSpace e.tags)

/-- `filtered` (lines 91-101): with a blank (trimmed) query, all entries
sorted descending by `updatedAt`; otherwise only those whose haystack
contains the lowercased query, same sort. -/
def visibleEntries (entries : List Entry) (query : String) : List Entry :=
  if jsToLower (jsTrim query) = "" then sortByUpdatedDesc entries
  else
    sortByUpdatedDesc (entries.filter
      (fun e => jsIncludes (searchHay e) (jsToLower (jsTrim query))))

/-! ### Export / merge (lines 138-166) -/

/-- `exportJson` (lines 138-140) serializes the full collection as a JSON
array (pretty-printing does not affect the parsed value). -/
def exportSnapshot (entries : List Entry) : Json :=
  .arr (entries.map entryToJson)

/-- JS `Map.prototype.set`: replace the value bound to an existing key in
its original insertion position, or append a new binding. -/
def mapSet (m : List (String × Entry)) (k : String) (v : Entry) :
    List (String × Entry) :=
  if m.any (fun p => p.1 = k) then
    m.map (fun p => if p.1 = k then (k, v) else p)
  else m ++ [(k, v)]

/-- `new Map(prev.map(e => [e.id, e]))` (line 153). -/
def mapOfEntries (l : List Entry) : List (String × Entry) :=
  l.foldl (fun m e => mapSet m e.id e) []

/-- The merge at lines 152-156: existing entries keyed by id, every
incoming entry overwrites (`map.set`), values listed in map order. -/
def mergeById (prev incoming : List Entry) : List Entry :=
  (incoming.foldl (fun m e => mapSet m e.id e) (mapOfEntries prev)).map
    (fun p => p.2)

/-- The success path of `importJsonFile` (lines 151-160): merge by id
(incoming overwrites), display order re-sorted, then select the newest
imported entry — `if (newest?.id) setSelectedId(newest.id)` only updates
the selection when that id is truthy, that is, non-empty. -/
def importSuccess (incoming : List Entry) (s : AppState) : AppState :=
  persist { s with
    entries := sortByUpdatedDesc (mergeById s.entries incoming)
    selectedId :=
      match (sortByUpdatedDesc incoming).head? with
      | some w => if w.id = "" then s.selectedId else w.id
      | none => s.selectedId }

/-- `importJsonFile` (lines 142-166), after the file text has been read
and handed to `JSON.parse` (whose outcome is the `parsed` argument; an
`Except.error` carries the thrown parse-error message).  Returns the new
state and the alert message shown on failure (`none` on success). -/
def importSnapshot (parsed : Except String Json) (s : AppState) :
    AppState × Option String :=
  match parsed with
  | .error msg => (s, some msg)
  | .ok (.arr xs) =>
      if (xs.filterMap jsonToEntry).length = 0 then
        (s, some "no valid entries found")
      else (importSuccess (xs.filterMap jsonToEntry) s, none)
  | .ok _ => (s, some "invalid json: expected an array")

/-! ### Persistence Adapter and startup seeding
(src/src/lib/storage.ts, src/unnamed/part_000 lines 40-66) -/

/-- What `localStorage` holds under the fixed key before startup:
absent, unusable (not valid JSON, or valid JSON that is not an array —
`loadEntries` returns `[]` for both), or a JSON array (whose elements the
code casts to `Entry` without validation). -/
inductive StoredBlob where
  | absent
  | malformed
  | stored (xs : List Entry)

/-- `loadEntries` (storage.ts lines 5-15): degrade to empty on anything
unusable, otherwise pass the array through. -/
def loadEntries : StoredBlob → List Entry
  | .absent => []
  | .malformed => []
  | .stored xs => xs

/-- First seed entry (lines 47-55). -/
def seedOne (now : Int) (idOne : String) : Entry :=
  ⟨idOne, "two-way door decisions",
   "reversible decisions → move fast; irreversible → slow down.",
   "trying a new note app is reversible. signing a long contract isn’t.",
   [.str "decision", .str "speed"], now, now⟩

/-- Second seed entry (lines 56-64). -/
def seedTwo (now : Int) (idTwo : String) : Entry :=
  ⟨idTwo, "default alive",
   "if it keeps options open, bias toward it.",
   "choose the path that preserves flexibility when you’re uncertain.",
   [.str "life", .str "optionalities"], now + 1, now + 1⟩

/-- The `entries` state initializer (lines 40-66): use the loaded
collection when non-empty, otherwise seed two entries. -/
def initEntries (blob : StoredBlob) (now : Int) (idOne idTwo : String) :
    List Entry :=
  let loaded := loadEntries blob
  if loaded.length > 0 then loaded
  else [seedOne now idOne, seedTwo now idTwo]

/-! ### Operation sequences -/

/-- One user-level mutating operation of the Entry Store. -/
inductive Op where
  | create (newId : String) (now : Int)
  | update (p : Patch) (now : Int)
  | delete
  | importFile (parsed : Except String Json)

/-- Apply one operation (for the import operation, the resulting state;
the alert channel is dropped here). -/
def applyOp : Op → AppState → AppState
  | .create newId now, s => createNew newId now s
  | .update p now, s => updateSelected p now s
  | .delete, s => deleteSelected s
  | .importFile parsed, s => (importSnapshot parsed s).1

/-- All intermediate states reached after each operation of a sequence. -/
def runOps (s : AppState) : List Op → List AppState
  | [] => []
  | op :: ops =>
      let s1 := applyOp op s
      s1 :: runOps s1 ops

example : normalizeTags "a, A, b ,, b" = ["a", "b"] := by decide

example : isEntry (entryToJson ⟨"x", "t", "o", "e", [.str "a"], 1, 5⟩) = true := rfl

example : jsonToEntry (entryToJson ⟨"x", "t", "o", "e", [.str "a"], 1, 5⟩)
    = some ⟨"x", "t", "o", "e", [.str "a"], 1, 5⟩ := rfl

/-! ### Helper lemmas -/

theorem enumFrom_map_snd (n : Nat) (l : List α) :
    (l.enumFrom n).map Prod.snd = l := by
  induction l generalizing n with
  | nil => rfl
  | cons a as ih => simp [List.enumFrom_cons, ih]

theorem enum_map_snd (l : List α) : l.enum.map Prod.snd = l :=
  enumFrom_map_snd 0 l

theorem dedupeKeepFirst_sublist (l : List String) :
    List.Sublist (dedupeKeepFirst l) l := by
  have h : List.Sublist (l.enum.filter (fun p => l.indexOf p.2 = p.1)) l.enum :=
    List.filter_sublist l.enum
  have h2 := h.map Prod.snd
  rw [enum_map_snd] at h2
  exact h2

theorem mem_dedupeKeepFirst {t : String} {l : List String} :
    t ∈ dedupeKeepFirst l ↔ t ∈ l := by
  constructor
  · exact fun h => (dedupeKeepFirst_sublist l).subset h
  · intro h
    have hlt : l.indexOf t < l.length := List.indexOf_lt_length.mpr h
    have hget : l[l.indexOf t] = t := List.getElem_indexOf hlt
    have henum : (l.indexOf t, t) ∈ l.enum := by
      rw [List.mk_mem_enum_iff_getElem?]
      rw [List.getElem?_eq_getElem hlt, hget]
    refine List.mem_map.mpr ⟨(l.indexOf t, t), ?_, rfl⟩
    exact List.mem_filter.mpr ⟨henum, by simp⟩

theorem dedupeKeepFirst_nodup (l : List String) : (dedupeKeepFirst l).Nodup := by
  have hen : l.enum.Nodup := (List.nodup_enum_map_fst l).of_map _
  have hfil : (l.enum.filter (fun p => l.indexOf p.2 = p.1)).Nodup :=
    hen.filter _
  refine hfil.map_on ?_
  intro x hx y hy hxy
  have hx2 := (List.mem_filter.mp hx).2
  have hy2 := (List.mem_filter.mp hy).2
  simp only [decide_eq_true_eq] at hx2 hy2
  obtain ⟨x1, x2⟩ := x
  obtain ⟨y1, y2⟩ := y
  simp only at hxy hx2 hy2
  subst hxy
  simp [← hx2, ← hy2]

theorem jsToLower_ne_empty {u : String} (h : u ≠ "") : jsToLower u ≠ "" := by
  intro hc
  apply h
  obtain ⟨d⟩ := u
  have hdata := congrArg String.data hc
  simp only [jsToLower] at hdata
  have : d = [] := by
    cases d with
    | nil => rfl
    | cons c cs => simp at hdata
  simp [this]

/-! ### Claim theorems: tag normalization (C6) -/

/-- Claim C6: `normalizeTags` splits its input on commas, trims each
piece, drops empty pieces, lowercases, and keeps only the first
occurrence of each value in order; in particular
`normalizeTags "a, A, b ,, b" = ["a", "b"]`, and the output never
contains duplicates or empty strings. -/
theorem C6_normalizeTags (raw : String) :
    (∀ t, t ∈ normalizeTags raw ↔ t ∈ tagPieces raw)
    ∧ List.Sublist (normalizeTags raw) (tagPieces raw)
    ∧ (normalizeTags raw).Nodup
    ∧ "" ∉ normalizeTags raw
    ∧ normalizeTags "a, A, b ,, b" = ["a", "b"] := by
  refine ⟨fun t => mem_dedupeKeepFirst, dedupeKeepFirst_sublist _,
    dedupeKeepFirst_nodup _, ?_, by decide⟩
  intro hmem
  rw [normalizeTags, mem_dedupeKeepFirst] at hmem
  rcases List.mem_map.mp hmem with ⟨u, hu, hlow⟩
  have hne : u ≠ "" := by
    have := (List.mem_filter.mp hu).2
    simpa using this
  exact jsToLower_ne_empty hne hlow

/-! ### Claim theorems: createNew (C3) -/

/-- Claim C3 counterexample: `createNew` gives the new entry the title
`"new rule"`, not the empty string, so the claim that the new entry's
title is the empty string fails on every call; shown here on a concrete
state. -/
theorem C3_counterexample :
    ((createNew "i" 0 ⟨[], "", []⟩).entries.head?.map Entry.title)
      = some "new rule"
    ∧ "new rule" ≠ "" := ⟨rfl, by decide⟩

/-- Claim C3 (amended): for every prior state, `createNew` builds a new
Entry whose title is `"new rule"`, whose one-liner and example are the
empty string, whose tag set is empty, with `createdAt = updatedAt = now`,
prepends it to the collection and makes it the current selection; being a
total function it never fails. -/
theorem C3_createNew (newId : String) (now : Int) (s : AppState) :
    (createNew newId now s).entries
        = ⟨newId, "new rule", "", "", [], now, now⟩ :: s.entries
    ∧ (createNew newId now s).selectedId = newId := ⟨rfl, rfl⟩

/-! ### Claim theorems: startup seeding (C10) -/

/-- Claim C10: when the Persistence Adapter load yields an empty
collection (key absent, malformed stored value, or empty array) the
initial collection is exactly the two predefined seed entries, whose text
fields are non-blank; when load yields a non-empty collection it is used
unchanged. -/
theorem C10_initSeeding (blob : StoredBlob) (now : Int) (idOne idTwo : String) :
    (loadEntries blob = [] →
      initEntries blob now idOne idTwo = [seedOne now idOne, seedTwo now idTwo])
    ∧ (loadEntries blob ≠ [] →
      initEntries blob now idOne idTwo = loadEntries blob)
    ∧ loadEntries .absent = [] ∧ loadEntries .malformed = []
    ∧ loadEntries (.stored []) = []
    ∧ ((seedOne now idOne).title ≠ "" ∧ (seedOne now idOne).oneLiner ≠ ""
        ∧ (seedOne now idOne).exampleText ≠ "")
    ∧ ((seedTwo now idTwo).title ≠ "" ∧ (seedTwo now idTwo).oneLiner ≠ ""
        ∧ (seedTwo now idTwo).exampleText ≠ "") := by
  refine ⟨?_, ?_, rfl, rfl, rfl, ⟨?_, ?_, ?_⟩, ⟨?_, ?_, ?_⟩⟩
  · intro h; simp [initEntries, h]
  · intro h
    cases hl : loadEntries blob with
    | nil => exact absurd hl h
    | cons a as => simp [initEntries, hl]
  all_goals simp [seedOne, seedTwo]

/-- Witness for C10: the seeding branch on an absent key, and the
pass-through branch on a stored non-empty collection. -/
theorem C10_witness :
    initEntries .absent 0 "a" "b" = [seedOne 0 "a", seedTwo 0 "b"]
    ∧ initEntries (.stored [seedOne 5 "c"]) 0 "a" "b" = [seedOne 5 "c"] :=
  ⟨(C10_initSeeding .absent 0 "a" "b").1 rfl,
   (C10_initSeeding (.stored [seedOne 5 "c"]) 0 "a" "b").2.1
     (by simp [loadEntries])⟩

/-! ### Claim theorems: write-through (C2) -/

theorem applyOp_stored_eq (op : Op) (s : AppState)
    (h : s.stored = s.entries) :
    (applyOp op s).stored = (applyOp op s).entries := by
  cases op with
  | create newId now => rfl
  | update p now =>
      show (updateSelected p now s).stored = (updateSelected p now s).entries
      unfold updateSelected
      cases selectedEntry s <;> simp [persist, h]
  | delete =>
      show (deleteSelected s).stored = (deleteSelected s).entries
      unfold deleteSelected
      cases selectedEntry s <;> simp [persist, h]
  | importFile parsed =>
      show ((importSnapshot parsed s).1).stored
          = ((importSnapshot parsed s).1).entries
      unfold importSnapshot
      rcases parsed with m | j
      · exact h
      · cases j with
        | arr xs =>
            dsimp only
            split
            · exact h
            · rfl
        | null => exact h
        | bool b => exact h
        | num n => exact h
        | str st => exact h
        | obj fs => exact h

/-- Claim C2: starting from a state whose persisted snapshot equals the
in-memory collection (the persist effect also runs on mount), after every
operation of any sequence of create/update/delete/import operations the
snapshot stored by the Persistence Adapter equals the in-memory
collection (write-through). -/
theorem C2_writeThrough (s : AppState) (ops : List Op)
    (h : s.stored = s.entries) :
    ∀ s1 ∈ runOps s ops, s1.stored = s1.entries := by
  induction ops generalizing s with
  | nil => intro s1 hs1; simp [runOps] at hs1
  | cons op ops ih =>
      intro s1 hs1
      rw [runOps] at hs1
      rcases List.mem_cons.mp hs1 with h1 | h1
      · subst h1; exact applyOp_stored_eq op s h
      · exact ih (applyOp op s) (applyOp_stored_eq op s h) s1 h1

/-- Witness for C2 at a concrete state and operation sequence. -/
theorem C2_witness :
    (createNew "i" 0 ⟨[], "", []⟩).stored = (createNew "i" 0 ⟨[], "", []⟩).entries :=
  C2_writeThrough ⟨[], "", []⟩ [Op.create "i" 0] rfl
    (createNew "i" 0 ⟨[], "", []⟩) (List.mem_singleton.mpr rfl)

/-! ### Entry shape predicate vs. decoding -/

theorem isStringField_iff {v : Option Json} :
    isStringField v = true ↔ ∃ s, v = some (.str s) := by
  cases v with
  | none => simp [isStringField]
  | some j => cases j <;> simp [isStringField]

theorem isNumberField_iff {v : Option Json} :
    isNumberField v = true ↔ ∃ n, v = some (.num n) := by
  cases v with
  | none => simp [isNumberField]
  | some j => cases j <;> simp [isNumberField]

theorem isArrField_iff {v : Option Json} :
    isArrField v = true ↔ ∃ xs, v = some (.arr xs) := by
  cases v with
  | none => simp [isArrField]
  | some j => cases j <;> simp [isArrField]

theorem jsonToEntry_isSome_of_isEntry {x : Json} (h : isEntry x = true) :
    ∃ e, jsonToEntry x = some e := by
  cases x with
  | obj fs =>
      simp only [isEntry, Bool.and_eq_true] at h
      obtain ⟨⟨⟨⟨⟨⟨h1, h2⟩, h3⟩, h4⟩, h5⟩, h6⟩, h7⟩ := h
      rcases isStringField_iff.mp h1 with ⟨i, hi⟩
      rcases isStringField_iff.mp h2 with ⟨t, ht⟩
      rcases isStringField_iff.mp h3 with ⟨o, ho⟩
      rcases isStringField_iff.mp h4 with ⟨ex, hex⟩
      rcases isArrField_iff.mp h5 with ⟨tg, htg⟩
      rcases isNumberField_iff.mp h6 with ⟨c, hc⟩
      rcases isNumberField_iff.mp h7 with ⟨u, hu⟩
      exact ⟨⟨i, t, o, ex, tg, c, u⟩,
        by rw [jsonToEntry, hi, ht, ho, hex, htg, hc, hu]⟩
  | null => simp [isEntry] at h
  | bool b => simp [isEntry] at h
  | num n => simp [isEntry] at h
  | str st => simp [isEntry] at h
  | arr xs => simp [isEntry] at h

theorem isEntry_of_jsonToEntry {x : Json} {e : Entry}
    (h : jsonToEntry x = some e) : isEntry x = true := by
  cases x with
  | obj fs =>
      rw [jsonToEntry] at h
      split at h
      · rename_i i t o ex tg c u h1 h2 h3 h4 h5 h6 h7
        rw [isEntry, h1, h2, h3, h4, h5, h6, h7]
        rfl
      · exact absurd h (by simp)
  | null => simp [jsonToEntry, getField] at h
  | bool b => simp [jsonToEntry, getField] at h
  | num n => simp [jsonToEntry, getField] at h
  | str st => simp [jsonToEntry, getField] at h
  | arr xs => simp [jsonToEntry, getField] at h

theorem jsonToEntry_eq_none {x : Json} (h : isEntry x = false) :
    jsonToEntry x = none := by
  cases hj : jsonToEntry x with
  | none => rfl
  | some e => rw [isEntry_of_jsonToEntry hj] at h; cases h

/-! ### Claim theorems: import failure atomicity (C1) -/

/-- Claim C1: whenever the parse step throws, the parsed value is not an
array, or no array element satisfies the Entry shape predicate, the
operation surfaces an error message and returns the state unchanged: both
the entries collection and the persisted snapshot are exactly what they
were before the call. -/
theorem C1_importAtomic (parsed : Except String Json) (s : AppState)
    (h : (∃ m, parsed = .error m)
       ∨ (∃ j, parsed = .ok j ∧ ∀ xs, j ≠ Json.arr xs)
       ∨ (∃ xs, parsed = .ok (.arr xs) ∧ ∀ x ∈ xs, isEntry x = false)) :
    (importSnapshot parsed s).1 = s
    ∧ ((importSnapshot parsed s).2).isSome := by
  rcases h with ⟨m, rfl⟩ | ⟨j, rfl, hj⟩ | ⟨xs, rfl, hx⟩
  · exact ⟨rfl, rfl⟩
  · cases j with
    | arr xs => exact absurd rfl (hj xs)
    | null => exact ⟨rfl, rfl⟩
    | bool b => exact ⟨rfl, rfl⟩
    | num n => exact ⟨rfl, rfl⟩
    | str st => exact ⟨rfl, rfl⟩
    | obj fs => exact ⟨rfl, rfl⟩
  · have hnil : xs.filterMap jsonToEntry = [] :=
      List.filterMap_eq_nil_iff.mpr fun a ha => jsonToEntry_eq_none (hx a ha)
    rw [importSnapshot]
    simp [hnil]

/-- Witness for C1: importing a file whose text fails to parse leaves a
concrete state untouched and yields an error message. -/
theorem C1_witness :
    (importSnapshot (.error "unexpected token") ⟨[], "", []⟩).1 = ⟨[], "", []⟩
    ∧ ((importSnapshot (.error "unexpected token") ⟨[], "", []⟩).2).isSome :=
  C1_importAtomic (.error "unexpected token") ⟨[], "", []⟩
    (Or.inl ⟨"unexpected token", rfl⟩)

/-! ### Sorting lemmas -/

theorem byUpdatedDesc_trans (a b c : Entry) :
    byUpdatedDesc a b → byUpdatedDesc b c → byUpdatedDesc a c := by
  simp only [byUpdatedDesc, decide_eq_true_eq]
  omega

theorem byUpdatedDesc_total (a b : Entry) :
    byUpdatedDesc a b || byUpdatedDesc b a := by
  simp only [byUpdatedDesc, Bool.or_eq_true, decide_eq_true_eq]
  omega

theorem sortByUpdatedDesc_perm (l : List Entry) :
    (sortByUpdatedDesc l).Perm l :=
  List.mergeSort_perm l _

theorem sortByUpdatedDesc_pairwise (l : List Entry) :
    (sortByUpdatedDesc l).Pairwise (fun a b => b.updatedAt ≤ a.updatedAt) := by
  have h := @List.sorted_mergeSort Entry byUpdatedDesc
    byUpdatedDesc_trans byUpdatedDesc_total l
  exact h.imp (fun hab => by simpa [byUpdatedDesc] using hab)

/-- Stability: a stable descending sort does not reorder entries sharing
one `updatedAt` value, so filtering the sorted list at any fixed
`updatedAt` gives the corresponding filter of the input. -/
theorem sortByUpdatedDesc_filter_key (l : List Entry) (t : Int) :
    (sortByUpdatedDesc l).filter (fun e => e.updatedAt = t)
      = l.filter (fun e => e.updatedAt = t) := by
  set p : Entry → Bool := fun e => e.updatedAt = t with hp
  have hmemp : ∀ e ∈ l.filter p, e.updatedAt = t := by
    intro e he
    have := (List.mem_filter.mp he).2
    simpa [hp] using this
  have hpair : (l.filter p).Pairwise (fun a b => byUpdatedDesc a b = true) := by
    apply List.pairwise_of_forall_mem_list
    intro a ha b hb
    simp only [byUpdatedDesc, hmemp a ha, hmemp b hb, decide_eq_true_eq]
    omega
  have hsub : List.Sublist (l.filter p) (sortByUpdatedDesc l) :=
    List.sublist_mergeSort byUpdatedDesc_trans byUpdatedDesc_total hpair
      (List.filter_sublist l)
  have hsub2 : List.Sublist (l.filter p) ((sortByUpdatedDesc l).filter p) := by
    have h1 := hsub.filter p
    rwa [List.filter_filter, show ((fun e => p e && p e) = p) by
      funext e; cases p e <;> rfl] at h1
  have hlen : ((sortByUpdatedDesc l).filter p).length = (l.filter p).length :=
    ((sortByUpdatedDesc_perm l).filter p).length_eq
  exact (hsub2.eq_of_length hlen.symm).symm

/-- The first element of the stable descending sort attains the maximum
`updatedAt` of the list. -/
theorem sortByUpdatedDesc_head_max {l : List Entry} {w : Entry} {rest : List Entry}
    (h : sortByUpdatedDesc l = w :: rest) :
    w ∈ l ∧ ∀ e ∈ l, e.updatedAt ≤ w.updatedAt := by
  have hperm := sortByUpdatedDesc_perm l
  rw [h] at hperm
  constructor
  · exact hperm.mem_iff.mp (List.mem_cons_self w rest)
  · intro e he
    have he2 : e ∈ w :: rest := hperm.mem_iff.mpr he
    rcases List.mem_cons.mp he2 with rfl | hr
    · exact le_refl _
    · have hpair := sortByUpdatedDesc_pairwise l
      rw [h] at hpair
      exact (List.pairwise_cons.mp hpair).1 e hr

/-! ### Claim theorems: search / filter (C5) -/

/-- The haystack as the claim words it: the PLAIN concatenation of title,
one-liner, example and space-joined tags (no separators), lowercased.
Stated only to exhibit where the claim diverges from the code, whose
haystack `searchHay` joins the four parts with newlines. -/
def searchHayPlain (e : Entry) : String :=
  jsToLower (e.title ++ e.oneLiner ++ e.exampleText ++ jsJoinSpace e.tags)

/-- Claim C5 counterexample: for the entry with title "a" and one-liner
"b", the plain lowercased concatenation contains the query "ab", so the
claim requires the entry to be returned; the code's newline-joined
haystack does not contain "ab" and the entry is not returned. -/
theorem C5_counterexample :
    jsIncludes (searchHayPlain ⟨"x", "a", "b", "", [], 0, 0⟩)
        (jsToLower (jsTrim "ab")) = true
    ∧ visibleEntries [⟨"x", "a", "b", "", [], 0, 0⟩] "ab" = [] := by
  constructor
  · decide
  · unfold visibleEntries
    rw [if_neg (by decide : ¬ (jsToLower (jsTrim "ab") = ""))]
    rw [show List.filter
          (fun e => jsIncludes (searchHay e) (jsToLower (jsTrim "ab")))
          [(⟨"x", "a", "b", "", [], 0, 0⟩ : Entry)] = ([] : List Entry)
        from rfl]
    simp [sortByUpdatedDesc]

/-- Claim C5 (amended): with a query that is empty after trimming and
lowercasing, `visibleEntries` returns all entries; otherwise it returns
exactly those entries whose lowercased NEWLINE-separated concatenation of
title, one-liner, example and space-joined tags contains the lowercased
query as a substring; in both cases the result is sorted descending by
`updatedAt` with ties preserving relative input order. -/
theorem C5_visibleEntries (entries : List Entry) (query : String) :
    (jsToLower (jsTrim query) = "" →
      (visibleEntries entries query).Perm entries)
    ∧ (jsToLower (jsTrim query) ≠ "" →
      (visibleEntries entries query).Perm
        (entries.filter
          (fun e => jsIncludes (searchHay e) (jsToLower (jsTrim query)))))
    ∧ (visibleEntries entries query).Pairwise
        (fun a b => b.updatedAt ≤ a.updatedAt)
    ∧ (∀ t : Int,
        (visibleEntries entries query).filter (fun e => e.updatedAt = t)
          = (if jsToLower (jsTrim query) = "" then entries
             else entries.filter
               (fun e => jsIncludes (searchHay e) (jsToLower (jsTrim query)))).filter
              (fun e => e.updatedAt = t)) := by
  refine ⟨?_, ?_, ?_, ?_⟩
  · intro h
    unfold visibleEntries
    rw [if_pos h]
    exact sortByUpdatedDesc_perm entries
  · intro h
    unfold visibleEntries
    rw [if_neg h]
    exact sortByUpdatedDesc_perm _
  · unfold visibleEntries
    split
    · exact sortByUpdatedDesc_pairwise entries
    · exact sortByUpdatedDesc_pairwise _
  · intro t
    unfold visibleEntries
    split
    · exact sortByUpdatedDesc_filter_key entries t
    · exact sortByUpdatedDesc_filter_key _ t

/-- Witness for C5 at concrete inputs: the blank-query branch and a
non-blank-query branch. -/
theorem C5_witness :
    (visibleEntries [⟨"x", "a", "b", "", [], 0, 0⟩] "").Perm
        [⟨"x", "a", "b", "", [], 0, 0⟩]
    ∧ (visibleEntries [⟨"x", "a", "b", "", [], 0, 0⟩] "zz").Perm
        (([⟨"x", "a", "b", "", [], 0, 0⟩] : List Entry).filter
          (fun e => jsIncludes (searchHay e) (jsToLower (jsTrim "zz")))) :=
  ⟨(C5_visibleEntries [⟨"x", "a", "b", "", [], 0, 0⟩] "").1 rfl,
   (C5_visibleEntries [⟨"x", "a", "b", "", [], 0, 0⟩] "zz").2.1 (by decide)⟩

/-! ### Claim theorems: updatedAt >= createdAt invariant (C8) -/

/-- The data-model invariant of spec section 3: every entry has
`updatedAt >= createdAt`. -/
def timeOrdered (l : List Entry) : Prop := ∀ e ∈ l, e.createdAt ≤ e.updatedAt

theorem UIPatch_toPatch_id (p : UIPatch) : p.toPatch.id = none := by
  cases p <;> rfl

theorem UIPatch_toPatch_createdAt (p : UIPatch) : p.toPatch.createdAt = none := by
  cases p <;> rfl

theorem sortByUpdatedDesc_singleton (e : Entry) : sortByUpdatedDesc [e] = [e] := by
  simp [sortByUpdatedDesc]

/-- A record passing `isEntry` with `updatedAt < createdAt`: the shape
predicate never compares the two timestamps. -/
def badRecord : Json :=
  .obj [("id", .str "x"), ("title", .str "t"), ("oneLiner", .str ""),
        ("example", .str ""), ("tags", .arr []), ("createdAt", .num 5),
        ("updatedAt", .num 1)]

/-- The entry `badRecord` decodes to. -/
def badEntry : Entry := ⟨"x", "t", "", "", [], 5, 1⟩

/-- Claim C8 counterexample: importing `badRecord` into the empty state
succeeds and commits an entry with `updatedAt < createdAt`, so import
does not preserve the invariant. -/
theorem C8_counterexample :
    ((importSnapshot (.ok (.arr [badRecord])) ⟨[], "", []⟩).1).entries
      = [badEntry]
    ∧ (importSnapshot (.ok (.arr [badRecord])) ⟨[], "", []⟩).2 = none
    ∧ badEntry.updatedAt < badEntry.createdAt := by
  have hinc : List.filterMap jsonToEntry [badRecord] = [badEntry] := rfl
  refine ⟨?_, ?_, by decide⟩ <;>
    simp [importSnapshot, importSuccess, hinc, mergeById, mapOfEntries, mapSet,
      sortByUpdatedDesc_singleton, persist, badEntry]

/-- Claim C8 (amended): the invariant `updatedAt >= createdAt` is
preserved by createNew, by deleteSelected, and by updateSelected through
the UI patches whenever the clock is not earlier than any entry's
`createdAt`; it is NOT preserved by import (see the counterexample),
because `isEntry` never compares the two timestamps of an incoming
record. -/
theorem C8_invariant (s : AppState) (h : timeOrdered s.entries) :
    (∀ (newId : String) (now : Int), timeOrdered (createNew newId now s).entries)
    ∧ (∀ (p : UIPatch) (now : Int), (∀ e ∈ s.entries, e.createdAt ≤ now) →
        timeOrdered (updateSelected p.toPatch now s).entries)
    ∧ timeOrdered (deleteSelected s).entries := by
  refine ⟨?_, ?_, ?_⟩
  · intro newId now e he
    have he2 : e = ⟨newId, "new rule", "", "", [], now, now⟩ ∨ e ∈ s.entries := by
      simpa [createNew, persist] using he
    rcases he2 with rfl | hmem
    · exact le_refl _
    · exact h e hmem
  · intro p now hclock e he
    unfold updateSelected at he
    cases hsel : selectedEntry s with
    | none => rw [hsel] at he; exact h e he
    | some sel =>
        rw [hsel] at he
        simp only [persist] at he
        rcases List.mem_map.mp he with ⟨e0, he0, rfl⟩
        by_cases hid : e0.id = sel.id
        · rw [if_pos hid]

          show (applyPatch e0 p.toPatch now).createdAt
            ≤ (applyPatch e0 p.toPatch now).updatedAt
          simp only [applyPatch, UIPatch_toPatch_createdAt, Option.getD_none]
          exact hclock e0 he0
        · rw [if_neg hid]; exact h e0 he0
  · intro e he
    unfold deleteSelected at he
    cases hsel : selectedEntry s with
    | none => rw [hsel] at he; exact h e he
    | some sel =>
        rw [hsel] at he
        simp only [persist] at he
        exact h e (List.mem_filter.mp he).1

/-- Witness for C8 at concrete states: the create clause on the empty
state, and the update clause on a one-entry state with a later clock. -/
theorem C8_witness :
    timeOrdered (createNew "i" 0 ⟨[], "", []⟩).entries
    ∧ timeOrdered (updateSelected (UIPatch.title "t").toPatch 7
        ⟨[⟨"a", "", "", "", [], 1, 2⟩], "a", []⟩).entries :=
  ⟨(C8_invariant ⟨[], "", []⟩ (fun e he => absurd he (List.not_mem_nil e))).1 "i" 0,
   (C8_invariant ⟨[⟨"a", "", "", "", [], 1, 2⟩], "a", []⟩
      (fun e he => by rcases List.mem_singleton.mp he with rfl; decide)).2.1
     (UIPatch.title "t") 7
     (fun e he => by rcases List.mem_singleton.mp he with rfl; decide)⟩

/-! ### Claim theorems: update frame property (C9) -/

/-- Claim C9: with an entry selected, every patch the UI passes to
`updateSelected` (title, one-liner, example or normalized tags) leaves the
`id` and `createdAt` of the patched entry unchanged — only title,
one-liner, example, tags and `updatedAt` can change — and every entry not
sharing the selected id is left completely unchanged. -/
theorem C9_updateFrame (s : AppState) (p : UIPatch) (now : Int) (sel : Entry)
    (hsel : selectedEntry s = some sel) :
    (updateSelected p.toPatch now s).entries
      = s.entries.map
          (fun e => if e.id = sel.id then applyPatch e p.toPatch now else e)
    ∧ (∀ e ∈ s.entries,
        (if e.id = sel.id then applyPatch e p.toPatch now else e).id = e.id
        ∧ (if e.id = sel.id then applyPatch e p.toPatch now else e).createdAt
            = e.createdAt
        ∧ (e.id ≠ sel.id →
            (if e.id = sel.id then applyPatch e p.toPatch now else e) = e)) := by
  constructor
  · unfold updateSelected
    rw [hsel]
    rfl
  · intro e he
    by_cases hid : e.id = sel.id
    · refine ⟨?_, ?_, fun hne => absurd hid hne⟩
      · rw [if_pos hid]
        simp [applyPatch, UIPatch_toPatch_id]
      · rw [if_pos hid]
        simp [applyPatch, UIPatch_toPatch_createdAt]
    · exact ⟨by rw [if_neg hid], by rw [if_neg hid], fun _ => by rw [if_neg hid]⟩

/-- Witness for C9 at a concrete one-entry state with a title patch. -/
theorem C9_witness :
    (updateSelected (UIPatch.title "t").toPatch 7
        ⟨[⟨"a", "x", "", "", [], 1, 2⟩], "a", []⟩).entries
      = [(⟨"a", "x", "", "", [], 1, 2⟩ : Entry)].map
          (fun e => if e.id = (⟨"a", "x", "", "", [], 1, 2⟩ : Entry).id
            then applyPatch e (UIPatch.title "t").toPatch 7 else e) :=
  (C9_updateFrame ⟨[⟨"a", "x", "", "", [], 1, 2⟩], "a", []⟩ (UIPatch.title "t")
    7 ⟨"a", "x", "", "", [], 1, 2⟩ rfl).1

/-! ### Merge lemmas (JS Map association list) -/

/-- The in-place-replace branch of `Map.set`. -/
def replaceAt (k : String) (v : Entry) (m : List (String × Entry)) :
    List (String × Entry) :=
  m.map (fun p => if p.1 = k then (k, v) else p)

theorem mapSet_eq_replace {m : List (String × Entry)} {k : String} {v : Entry}
    (hany : m.any (fun p => p.1 = k) = true) :
    mapSet m k v = replaceAt k v m := by
  unfold mapSet replaceAt
  rw [if_pos hany]

theorem mapSet_eq_append {m : List (String × Entry)} {k : String} {v : Entry}
    (hany : ¬ m.any (fun p => p.1 = k) = true) :
    mapSet m k v = m ++ [(k, v)] := by
  unfold mapSet
  rw [if_neg hany]

theorem replaceAt_keys (k : String) (v : Entry) (m : List (String × Entry)) :
    (replaceAt k v m).map Prod.fst = m.map Prod.fst := by
  unfold replaceAt
  rw [List.map_map]
  apply List.map_congr_left
  intro p _
  by_cases h : p.1 = k
  · simp [h]
  · simp [h]

theorem mapSet_keys_nodup {m : List (String × Entry)} {k : String} {v : Entry}
    (h : (m.map Prod.fst).Nodup) : ((mapSet m k v).map Prod.fst).Nodup := by
  by_cases hany : m.any (fun p => p.1 = k) = true
  · rw [mapSet_eq_replace hany, replaceAt_keys]
    exact h
  · rw [mapSet_eq_append hany]
    have hk : k ∉ m.map Prod.fst := by
      intro hmem
      rcases List.mem_map.mp hmem with ⟨p, hp, rfl⟩
      exact hany (List.any_eq_true.mpr ⟨p, hp, by simp⟩)
    simp [List.nodup_append, h, hk]

theorem mapSet_pairing {m : List (String × Entry)} {k : String} {v : Entry}
    (h : ∀ q ∈ m, q.1 = q.2.id) (hv : v.id = k) :
    ∀ q ∈ mapSet m k v, q.1 = q.2.id := by
  intro q hq
  by_cases hany : m.any (fun p => p.1 = k) = true
  · rw [mapSet_eq_replace hany] at hq
    rcases List.mem_map.mp hq with ⟨p, hp, rfl⟩
    by_cases hpk : p.1 = k
    · rw [if_pos hpk]
      simp [hv]
    · rw [if_neg hpk]
      exact h p hp
  · rw [mapSet_eq_append hany] at hq
    rcases List.mem_append.mp hq with hq | hq
    · exact h q hq
    · rcases List.mem_singleton.mp hq with rfl
      simp [hv]

theorem replaceAt_filter_self {k : String} {v : Entry} :
    ∀ (m : List (String × Entry)), (m.map Prod.fst).Nodup →
      m.any (fun p => p.1 = k) = true →
      (replaceAt k v m).filter (fun q => q.1 = k) = [(k, v)]
  | [], _, hany => by simp at hany
  | q :: rest, hnd, hany => by
      rw [List.map_cons, List.nodup_cons] at hnd
      by_cases hq : q.1 = k
      · have hmaprest :
            (replaceAt k v rest).filter (fun p => p.1 = k) = [] := by
          apply List.filter_eq_nil_iff.mpr
          intro p hp
          rcases List.mem_map.mp hp with ⟨p0, hp0, rfl⟩
          by_cases hp0k : p0.1 = k
          · exfalso
            apply hnd.1
            rw [hq, ← hp0k]
            exact List.mem_map_of_mem Prod.fst hp0
          · rw [if_neg hp0k]
            simpa using hp0k
        show ((if q.1 = k then (k, v) else q) :: replaceAt k v rest).filter
            (fun q => q.1 = k) = [(k, v)]
        rw [if_pos hq, List.filter_cons_of_pos (by simp), hmaprest]
      · have hany2 : rest.any (fun p => p.1 = k) = true := by
          rcases List.any_eq_true.mp hany with ⟨p, hp, hpk⟩
          rcases List.mem_cons.mp hp with rfl | hp2
          · exact absurd (by simpa using hpk) hq
          · exact List.any_eq_true.mpr ⟨p, hp2, hpk⟩
        show ((if q.1 = k then (k, v) else q) :: replaceAt k v rest).filter
            (fun q => q.1 = k) = [(k, v)]
        rw [if_neg hq, List.filter_cons_of_neg (by simpa using hq)]
        exact replaceAt_filter_self rest hnd.2 hany2

theorem replaceAt_filter_ne {k k2 : String} {v : Entry} (hne : k2 ≠ k) :
    ∀ (m : List (String × Entry)),
      (replaceAt k v m).filter (fun q => q.1 = k2)
        = m.filter (fun q => q.1 = k2)
  | [] => rfl
  | q :: rest => by
      show ((if q.1 = k then (k, v) else q) :: replaceAt k v rest).filter
          (fun q => q.1 = k2) = (q :: rest).filter (fun q => q.1 = k2)
      by_cases hq : q.1 = k
      · rw [if_pos hq]
        rw [List.filter_cons_of_neg (by simpa using fun h => hne h.symm),
          List.filter_cons_of_neg
            (by simp only [decide_eq_true_eq, hq]; exact fun h => hne h.symm)]
        exact replaceAt_filter_ne hne rest
      · rw [if_neg hq]
        by_cases hq2 : q.1 = k2
        · rw [List.filter_cons_of_pos (by simpa using hq2),
            List.filter_cons_of_pos (by simpa using hq2)]
          rw [replaceAt_filter_ne hne rest]
        · rw [List.filter_cons_of_neg (by simpa using hq2),
            List.filter_cons_of_neg (by simpa using hq2)]
          exact replaceAt_filter_ne hne rest

theorem mapSet_filter_self {m : List (String × Entry)} {k : String} {v : Entry}
    (hnd : (m.map Prod.fst).Nodup) :
    (mapSet m k v).filter (fun q => q.1 = k) = [(k, v)] := by
  by_cases hany : m.any (fun p => p.1 = k) = true
  · rw [mapSet_eq_replace hany]
    exact replaceAt_filter_self m hnd hany
  · rw [mapSet_eq_append hany, List.filter_append]
    have hm : m.filter (fun q => q.1 = k) = [] := by
      apply List.filter_eq_nil_iff.mpr
      intro p hp hpk
      exact hany (List.any_eq_true.mpr ⟨p, hp, hpk⟩)
    rw [hm]
    simp

theorem mapSet_filter_ne {m : List (String × Entry)} {k k2 : String} {v : Entry}
    (hne : k2 ≠ k) :
    (mapSet m k v).filter (fun q => q.1 = k2)
      = m.filter (fun q => q.1 = k2) := by
  by_cases hany : m.any (fun p => p.1 = k) = true
  · rw [mapSet_eq_replace hany]
    exact replaceAt_filter_ne hne m
  · rw [mapSet_eq_append hany, List.filter_append]
    rw [List.filter_cons_of_neg (by simpa using fun h => hne h.symm)]
    simp

theorem foldl_mapSet_keys_nodup :
    ∀ (inc : List Entry) (m : List (String × Entry)),
      (m.map Prod.fst).Nodup →
      ((inc.foldl (fun m e => mapSet m e.id e) m).map Prod.fst).Nodup
  | [], _, h => h
  | a :: rest, m, h =>
      foldl_mapSet_keys_nodup rest (mapSet m a.id a) (mapSet_keys_nodup h)

theorem foldl_mapSet_pairing :
    ∀ (inc : List Entry) (m : List (String × Entry)),
      (∀ q ∈ m, q.1 = q.2.id) →
      ∀ q ∈ inc.foldl (fun m e => mapSet m e.id e) m, q.1 = q.2.id
  | [], _, h => h
  | a :: rest, m, h =>
      foldl_mapSet_pairing rest (mapSet m a.id a) (mapSet_pairing h rfl)

theorem foldl_mapSet_filter_untouched :
    ∀ (inc : List Entry) (m : List (String × Entry)) (k : String),
      (∀ e ∈ inc, e.id ≠ k) →
      (inc.foldl (fun m e => mapSet m e.id e) m).filter (fun q => q.1 = k)
        = m.filter (fun q => q.1 = k)
  | [], _, _, _ => rfl
  | a :: rest, m, k, h => by
      rw [List.foldl_cons]
      rw [foldl_mapSet_filter_untouched rest (mapSet m a.id a) k
        (fun e he => h e (List.mem_cons_of_mem a he))]
      exact mapSet_filter_ne
        (fun hk => h a (List.mem_cons_self a rest) hk.symm)

theorem foldl_mapSet_filter_mem :
    ∀ (inc : List Entry) (m : List (String × Entry)),
      (m.map Prod.fst).Nodup → ((inc.map Entry.id).Nodup) →
      ∀ e ∈ inc,
      (inc.foldl (fun m e => mapSet m e.id e) m).filter (fun q => q.1 = e.id)
        = [(e.id, e)]
  | [], _, _, _, e, he => absurd he (List.not_mem_nil e)
  | a :: rest, m, hm, hN, e, he => by
      rw [List.map_cons, List.nodup_cons] at hN
      rw [List.foldl_cons]
      rcases List.mem_cons.mp he with rfl | he2
      · rw [foldl_mapSet_filter_untouched rest (mapSet m e.id e) e.id
            (fun f hf hfk => hN.1 (hfk ▸ List.mem_map_of_mem Entry.id hf))]
        exact mapSet_filter_self hm
      · exact foldl_mapSet_filter_mem rest (mapSet m a.id a)
          (mapSet_keys_nodup hm) hN.2 e he2

theorem mapOfEntries_keys_nodup (prev : List Entry) :
    ((mapOfEntries prev).map Prod.fst).Nodup :=
  foldl_mapSet_keys_nodup prev [] (by simp)

theorem mapOfEntries_pairing (prev : List Entry) :
    ∀ q ∈ mapOfEntries prev, q.1 = q.2.id :=
  foldl_mapSet_pairing prev [] (fun q hq => absurd hq (List.not_mem_nil q))

theorem filter_map_snd :
    ∀ (m : List (String × Entry)), (∀ q ∈ m, q.1 = q.2.id) → ∀ (k : String),
      (m.map Prod.snd).filter (fun v => v.id = k)
        = (m.filter (fun q => q.1 = k)).map Prod.snd
  | [], _, _ => rfl
  | q :: rest, h, k => by
      have hq := h q (List.mem_cons_self q rest)
      have ihr := filter_map_snd rest
        (fun p hp => h p (List.mem_cons_of_mem q hp)) k
      rw [List.map_cons]
      by_cases hqk : q.1 = k
      · rw [List.filter_cons_of_pos (by simp only [decide_eq_true_eq, ← hq]; exact hqk),
          List.filter_cons_of_pos (by simpa using hqk), List.map_cons, ihr]
      · rw [List.filter_cons_of_neg (by simp only [decide_eq_true_eq, ← hq]; exact hqk),
          List.filter_cons_of_neg (by simpa using hqk), ihr]

theorem mergeById_filter_incoming {prev inc : List Entry}
    (hinc : (inc.map Entry.id).Nodup) {e : Entry} (he : e ∈ inc) :
    (mergeById prev inc).filter (fun v => v.id = e.id) = [e] := by
  unfold mergeById
  rw [filter_map_snd _
    (foldl_mapSet_pairing inc (mapOfEntries prev) (mapOfEntries_pairing prev)) _]
  rw [foldl_mapSet_filter_mem inc (mapOfEntries prev)
    (mapOfEntries_keys_nodup prev) hinc e he]
  rfl

theorem mapOfEntries_filter_mem {prev : List Entry}
    (hprev : (prev.map Entry.id).Nodup) {e0 : Entry} (he0 : e0 ∈ prev) :
    (mapOfEntries prev).filter (fun q => q.1 = e0.id) = [(e0.id, e0)] := by
  unfold mapOfEntries
  exact foldl_mapSet_filter_mem prev [] (by simp) hprev e0 he0

theorem mergeById_filter_retained {prev inc : List Entry}
    (hprev : (prev.map Entry.id).Nodup)
    {e0 : Entry} (he0 : e0 ∈ prev) (hnotin : ∀ f ∈ inc, f.id ≠ e0.id) :
    (mergeById prev inc).filter (fun v => v.id = e0.id) = [e0] := by
  unfold mergeById
  rw [filter_map_snd _
    (foldl_mapSet_pairing inc (mapOfEntries prev) (mapOfEntries_pairing prev)) _]
  rw [foldl_mapSet_filter_untouched inc (mapOfEntries prev) e0.id hnotin]
  rw [mapOfEntries_filter_mem hprev he0]
  rfl

theorem foldl_mapSet_append :
    ∀ (l : List Entry) (m : List (String × Entry)),
      (∀ e ∈ l, ∀ q ∈ m, q.1 ≠ e.id) → (l.map Entry.id).Nodup →
      l.foldl (fun m e => mapSet m e.id e) m = m ++ l.map (fun e => (e.id, e))
  | [], m, _, _ => by simp
  | a :: rest, m, hdis, hN => by
      rw [List.map_cons, List.nodup_cons] at hN
      rw [List.foldl_cons]
      have hany : ¬ m.any (fun p => p.1 = a.id) = true := by
        intro hc
        rcases List.any_eq_true.mp hc with ⟨p, hp, hpk⟩
        exact hdis a (List.mem_cons_self a rest) p hp (by simpa using hpk)
      rw [mapSet_eq_append hany]
      rw [foldl_mapSet_append rest (m ++ [(a.id, a)]) ?_ hN.2]
      · rw [List.map_cons, List.append_assoc]
        rfl
      · intro e he q hq
        rcases List.mem_append.mp hq with hq | hq
        · exact hdis e (List.mem_cons_of_mem a he) q hq
        · rcases List.mem_singleton.mp hq with rfl
          intro hc
          simp only at hc
          exact hN.1 (by rw [hc]; exact List.mem_map_of_mem Entry.id he)

theorem mapOfEntries_eq_pairs {l : List Entry}
    (hN : (l.map Entry.id).Nodup) :
    mapOfEntries l = l.map (fun e => (e.id, e)) := by
  unfold mapOfEntries
  rw [foldl_mapSet_append l [] (fun e _ q hq => absurd hq (List.not_mem_nil q)) hN]
  rfl

theorem mapSet_fixed {m : List (String × Entry)} {k : String} {v : Entry}
    (hany : m.any (fun p => p.1 = k) = true)
    (huniq : ∀ q ∈ m, q.1 = k → q = (k, v)) :
    mapSet m k v = m := by
  rw [mapSet_eq_replace hany]
  unfold replaceAt
  have h2 : m.map (fun p => if p.1 = k then (k, v) else p) = m.map id := by
    apply List.map_congr_left
    intro p hp
    by_cases hpk : p.1 = k
    · rw [if_pos hpk]
      exact (huniq p hp hpk).symm
    · rw [if_neg hpk]
      rfl
  rw [h2, List.map_id]

theorem foldl_mapSet_fixed :
    ∀ (l : List Entry) (m : List (String × Entry)),
      (∀ e ∈ l, mapSet m e.id e = m) →
      l.foldl (fun m e => mapSet m e.id e) m = m
  | [], _, _ => rfl
  | a :: rest, m, h => by
      rw [List.foldl_cons, h a (List.mem_cons_self a rest)]
      exact foldl_mapSet_fixed rest m (fun e he => h e (List.mem_cons_of_mem a he))

theorem mergeById_self {l : List Entry} (hN : (l.map Entry.id).Nodup) :
    mergeById l l = l := by
  unfold mergeById
  rw [mapOfEntries_eq_pairs hN]
  rw [foldl_mapSet_fixed l (l.map (fun e => (e.id, e))) ?_]
  · rw [List.map_map]
    exact List.map_id l
  · intro e he
    apply mapSet_fixed
    · exact List.any_eq_true.mpr
        ⟨(e.id, e), List.mem_map_of_mem _ he, by simp⟩
    · intro q hq hqk
      rcases List.mem_map.mp hq with ⟨x, hx, rfl⟩
      have hx2 : x = e := by
        have hinj := List.inj_on_of_nodup_map hN
        exact hinj hx he (by simpa using hqk)
      rw [hx2]

/-! ### Claim theorems: merge policy and selection after import (C7) -/

/-- A record passing `isEntry` whose id is the empty string: the shape
predicate only requires `typeof id === "string"`. -/
def emptyIdRecord : Json :=
  .obj [("id", .str ""), ("title", .str "t"), ("oneLiner", .str ""),
        ("example", .str ""), ("tags", .arr []), ("createdAt", .num 0),
        ("updatedAt", .num 9)]

/-- Claim C7 counterexample: a successful import whose only (hence
greatest-`updatedAt`) incoming entry has id `""`; the claim requires the
selection to become that id, but `if (newest?.id)` treats `""` as falsy
and the selection stays `"old"`. -/
theorem C7_counterexample :
    (importSnapshot (.ok (.arr [emptyIdRecord])) ⟨[], "old", []⟩).2 = none
    ∧ (List.filterMap jsonToEntry [emptyIdRecord]).map Entry.id = [""]
    ∧ ((importSnapshot (.ok (.arr [emptyIdRecord])) ⟨[], "old", []⟩).1).selectedId
        = "old"
    ∧ "old" ≠ "" := by
  have hinc : List.filterMap jsonToEntry [emptyIdRecord]
      = [⟨"", "t", "", "", [], 0, 9⟩] := rfl
  refine ⟨?_, rfl, ?_, by decide⟩ <;>
    simp [importSnapshot, importSuccess, hinc, mergeById, mapOfEntries,
      mapSet, sortByUpdatedDesc_singleton, persist]

/-- Claim C7 (amended): for every successful import whose incoming valid
entries and existing entries have distinct ids, the merged collection
contains, for each incoming id, exactly the incoming record with that id
(incoming overwrites unconditionally); it retains unchanged every
existing entry whose id does not appear among the incoming entries; and
the selection afterwards becomes the id of the incoming entry with the
greatest `updatedAt` among the just-imported set when that id is
non-empty, while an empty newest id leaves the selection unchanged. -/
theorem C7_mergePolicy (xs : List Json) (s : AppState)
    (hne : xs.filterMap jsonToEntry ≠ [])
    (hprevN : (s.entries.map Entry.id).Nodup)
    (hincN : ((xs.filterMap jsonToEntry).map Entry.id).Nodup) :
    (importSnapshot (.ok (.arr xs)) s).2 = none
    ∧ (∀ e ∈ xs.filterMap jsonToEntry,
        ((importSnapshot (.ok (.arr xs)) s).1).entries.filter
          (fun v => v.id = e.id) = [e])
    ∧ (∀ e0 ∈ s.entries, (∀ f ∈ xs.filterMap jsonToEntry, f.id ≠ e0.id) →
        ((importSnapshot (.ok (.arr xs)) s).1).entries.filter
          (fun v => v.id = e0.id) = [e0])
    ∧ (∃ w ∈ xs.filterMap jsonToEntry,
        (∀ e ∈ xs.filterMap jsonToEntry, e.updatedAt ≤ w.updatedAt)
        ∧ ((importSnapshot (.ok (.arr xs)) s).1).selectedId
            = (if w.id = "" then s.selectedId else w.id)) := by
  have hlen : ¬ (xs.filterMap jsonToEntry).length = 0 := by
    simpa [List.length_eq_zero] using hne
  have himp : importSnapshot (.ok (.arr xs)) s
      = (importSuccess (xs.filterMap jsonToEntry) s, none) := by
    rw [importSnapshot]
    rw [if_neg hlen]
  refine ⟨by rw [himp], ?_, ?_, ?_⟩
  · intro e he
    rw [himp]
    have hperm :=
      (sortByUpdatedDesc_perm
        (mergeById s.entries (xs.filterMap jsonToEntry))).filter
        (fun v => v.id = e.id)
    rw [mergeById_filter_incoming hincN he] at hperm
    exact List.perm_singleton.mp hperm
  · intro e0 he0 hnotin
    rw [himp]
    have hperm :=
      (sortByUpdatedDesc_perm
        (mergeById s.entries (xs.filterMap jsonToEntry))).filter
        (fun v => v.id = e0.id)
    rw [mergeById_filter_retained hprevN he0 hnotin] at hperm
    exact List.perm_singleton.mp hperm
  · have hsne : sortByUpdatedDesc (xs.filterMap jsonToEntry) ≠ [] := by
      intro hc
      apply hne
      have hp := sortByUpdatedDesc_perm (xs.filterMap jsonToEntry)
      rw [hc] at hp
      exact List.perm_nil.mp hp.symm
    obtain ⟨w, rest, heq⟩ := List.exists_cons_of_ne_nil hsne
    obtain ⟨hw, hmax⟩ := sortByUpdatedDesc_head_max heq
    refine ⟨w, hw, hmax, ?_⟩
    rw [himp]
    show (importSuccess (xs.filterMap jsonToEntry) s).selectedId = _
    unfold importSuccess
    simp only [persist]
    rw [heq]
    rfl

/-- Witness for C7: importing a one-entry snapshot into the empty state
succeeds. -/
theorem C7_witness :
    (importSnapshot (.ok (.arr [entryToJson ⟨"a", "t", "", "", [], 1, 2⟩]))
        ⟨[], "", []⟩).2 = none :=
  (C7_mergePolicy [entryToJson ⟨"a", "t", "", "", [], 1, 2⟩] ⟨[], "", []⟩
    (by rw [show List.filterMap jsonToEntry
          [entryToJson ⟨"a", "t", "", "", [], 1, 2⟩]
          = [⟨"a", "t", "", "", [], 1, 2⟩] from rfl]
        exact List.cons_ne_nil _ _)
    (by simp)
    (by rw [show List.filterMap jsonToEntry
          [entryToJson ⟨"a", "t", "", "", [], 1, 2⟩]
          = [⟨"a", "t", "", "", [], 1, 2⟩] from rfl]
        simp)).1

/-! ### Claim theorems: export/import round trip (C4) -/

/-- Claim C4 counterexample: exporting the EMPTY collection and importing
that exact snapshot does not succeed — the import aborts with
"no valid entries found" — so the round trip fails for the empty
collection. -/
theorem C4_counterexample :
    exportSnapshot [] = .arr []
    ∧ (importSnapshot (.ok (exportSnapshot [])) ⟨[], "", []⟩).2
        = some "no valid entries found" := ⟨rfl, rfl⟩

/-- Claim C4 (amended): for every NON-EMPTY collection with distinct ids
(the id-uniqueness invariant of the data model), exporting the full
collection and immediately importing that exact snapshot succeeds and
yields a merged collection that is a permutation of the pre-export
collection — identical by id set and by field values. -/
theorem C4_roundTrip (s : AppState) (hne : s.entries ≠ [])
    (hN : (s.entries.map Entry.id).Nodup) :
    (importSnapshot (.ok (exportSnapshot s.entries)) s).2 = none
    ∧ ((importSnapshot (.ok (exportSnapshot s.entries)) s).1).entries.Perm
        s.entries := by
  have hdec : (s.entries.map entryToJson).filterMap jsonToEntry = s.entries := by
    rw [List.filterMap_map]
    have hcomp : (jsonToEntry ∘ entryToJson) = some := by
      funext e
      show jsonToEntry (entryToJson e) = some e
      rfl
    rw [hcomp]
    exact List.filterMap_some s.entries
  have hlen : ¬ ((s.entries.map entryToJson).filterMap jsonToEntry).length = 0 := by
    rw [hdec]
    simpa [List.length_eq_zero] using hne
  have himp : importSnapshot (.ok (exportSnapshot s.entries)) s
      = (importSuccess s.entries s, none) := by
    show importSnapshot (.ok (.arr (s.entries.map entryToJson))) s = _
    rw [importSnapshot]
    rw [if_neg hlen, hdec]
  constructor
  · rw [himp]
  · rw [himp]
    show (sortByUpdatedDesc (mergeById s.entries s.entries)).Perm s.entries
    rw [mergeById_self hN]
    exact sortByUpdatedDesc_perm s.entries

/-- Witness for C4 at a concrete one-entry collection. -/
theorem C4_witness :
    (importSnapshot (.ok (exportSnapshot [⟨"a", "t", "", "", [], 1, 2⟩]))
        ⟨[⟨"a", "t", "", "", [], 1, 2⟩], "a", [⟨"a", "t", "", "", [], 1, 2⟩]⟩).2
      = none
    ∧ ((importSnapshot (.ok (exportSnapshot [⟨"a", "t", "", "", [], 1, 2⟩]))
        ⟨[⟨"a", "t", "", "", [], 1, 2⟩], "a",
          [⟨"a", "t", "", "", [], 1, 2⟩]⟩).1).entries.Perm
        [⟨"a", "t", "", "", [], 1, 2⟩] :=
  C4_roundTrip
    ⟨[⟨"a", "t", "", "", [], 1, 2⟩], "a", [⟨"a", "t", "", "", [], 1, 2⟩]⟩
    (by simp) (by simp)

end MicroOS
